import Mathlib

/-!
Verification of the voice-input capture pipeline of the Flip repository
(frontend hook `useVoiceInput`, files `use-voice-input` in its two variants).

JavaScript strings are modelled as `List Char`; `String.prototype.trim` as
stripping whitespace characters from both ends; `String.prototype.startsWith`
as list-prefix testing.  Audio samples (JS numbers) are modelled as exact
rationals `ℚ`; `Math.round` as floor of `x + 1/2` (JS rounds halves toward
+∞); the store into an `Int16Array` as JS `ToInt16` (truncate toward zero,
then wrap into [-2^15, 2^15)).
-/

namespace Flip

/-- Whitespace test used by the JS `trim` model. -/
def isWS (c : Char) : Bool := c.isWhitespace

/-- Model of JS `String.prototype.trim`: drop whitespace from both ends. -/
def jsTrim (s : List Char) : List Char :=
  ((s.dropWhile isWS).reverse.dropWhile isWS).reverse

/-- Model of JS `s.startsWith(p)`: `p` is a prefix of `s`. -/
def jsStartsWith (s p : List Char) : Bool := p.isPrefixOf s

/-- `mergeTranscript` from `use-voice-input` (both variants are identical):
trims the incoming fragment, returns it if the previous transcript is empty,
adopts it if it extends the previous transcript, keeps the previous transcript
if the fragment is a stale shorter repeat, and otherwise concatenates the two
with a single space and trims. -/
def mergeTranscript (prev nextText : List Char) : List Char :=
  let cleaned := jsTrim nextText
  if prev = [] then cleaned
  else if jsStartsWith cleaned prev then cleaned
  else if jsStartsWith prev cleaned then prev
  else jsTrim (prev ++ [' '] ++ cleaned)

/-- The four-step merge policy exactly as the specification words it
(section 4.4): (1) trim incoming, empty previous yields the trimmed incoming;
(2) previous a prefix of the trimmed incoming yields the trimmed incoming;
(3) trimmed incoming a prefix of previous yields previous; (4) otherwise
concatenate with a single separating space, then trim. -/
def mergeSpecPolicy (previous incoming : List Char) : List Char :=
  let trimmedIncoming := jsTrim incoming
  if previous = [] then trimmedIncoming
  else if jsStartsWith trimmedIncoming previous then trimmedIncoming
  else if jsStartsWith previous trimmedIncoming then previous
  else jsTrim (previous ++ [' '] ++ trimmedIncoming)

/-- Adjacent-pair test helper: whether an optional character is whitespace. -/
def headWS : Option Char → Bool
  | some c => isWS c
  | none => false

/-- A string contains doubled whitespace when two consecutive characters are
both whitespace. -/
def hasDoubledWS : List Char → Bool
  | [] => false
  | a :: l => (isWS a && headWS l.head?) || hasDoubledWS l

end Flip

namespace Flip

theorem mergeTranscript_def (prev nextText : List Char) :
    mergeTranscript prev nextText =
      if prev = [] then jsTrim nextText
      else if jsStartsWith (jsTrim nextText) prev then jsTrim nextText
      else if jsStartsWith prev (jsTrim nextText) then prev
      else jsTrim (prev ++ [' '] ++ jsTrim nextText) := rfl

theorem isPrefixOf_antisymm : ∀ (a b : List Char),
    a.isPrefixOf b = true → b.isPrefixOf a = true → a = b
  | [], [], _, _ => rfl
  | [], _ :: _, _, h2 => by simp [List.isPrefixOf] at h2
  | _ :: _, [], h1, _ => by simp [List.isPrefixOf] at h1
  | a :: as, b :: bs, h1, h2 => by
    simp only [List.isPrefixOf, Bool.and_eq_true, beq_iff_eq] at h1 h2
    cases h1.1
    exact congrArg (List.cons a) (isPrefixOf_antisymm as bs h1.2 h2.2)

theorem hasDoubledWS_cons_false {a : Char} {l : List Char}
    (h : hasDoubledWS (a :: l) = false) : hasDoubledWS l = false := by
  simp only [hasDoubledWS, Bool.or_eq_false_iff] at h
  exact h.2

theorem hasDoubledWS_dropWhile {l : List Char} (p : Char → Bool)
    (h : hasDoubledWS l = false) : hasDoubledWS (l.dropWhile p) = false := by
  induction l with
  | nil => simpa using h
  | cons a l ih =>
    rw [List.dropWhile_cons]
    by_cases hp : p a = true
    · simp only [hp, if_true]
      exact ih (hasDoubledWS_cons_false h)
    · simp only [hp]
      simpa using h

theorem hasDoubledWS_append (xs ys : List Char) :
    hasDoubledWS (xs ++ ys) =
      (hasDoubledWS xs || (headWS xs.getLast? && headWS ys.head?) || hasDoubledWS ys) := by
  induction xs with
  | nil => simp [hasDoubledWS, headWS]
  | cons a xs ih =>
    cases xs with
    | nil =>
      cases ys with
      | nil => simp [hasDoubledWS, headWS]
      | cons b ys => simp [hasDoubledWS, headWS]
    | cons b xs' =>
      simp only [List.cons_append, List.getLast?_cons_cons]
      rw [show hasDoubledWS (a :: b :: (xs' ++ ys)) =
            ((isWS a && headWS (some b)) || hasDoubledWS (b :: (xs' ++ ys))) from rfl,
          show hasDoubledWS (a :: b :: xs') =
            ((isWS a && headWS (some b)) || hasDoubledWS (b :: xs')) from rfl,
          ← List.cons_append, ih]
      simp [Bool.or_assoc]

theorem hasDoubledWS_reverse (l : List Char) :
    hasDoubledWS l.reverse = hasDoubledWS l := by
  induction l with
  | nil => rfl
  | cons a l ih =>
    rw [List.reverse_cons, hasDoubledWS_append, ih, List.getLast?_reverse]
    simp [hasDoubledWS, headWS, Bool.or_comm, Bool.and_comm]

theorem headWS_dropWhile_isWS (l : List Char) :
    headWS (l.dropWhile isWS).head? = false := by
  induction l with
  | nil => rfl
  | cons a l ih =>
    rw [List.dropWhile_cons]
    by_cases h : isWS a = true
    · simpa [h] using ih
    · simp only [h]
      simpa [headWS] using by simpa using h

theorem getLast?_dropWhile_of_ne_nil (p : Char → Bool) (l : List Char)
    (h : l.dropWhile p ≠ []) : (l.dropWhile p).getLast? = l.getLast? := by
  induction l with
  | nil => simp at h
  | cons a l ih =>
    rw [List.dropWhile_cons] at h ⊢
    by_cases hp : p a = true
    · simp only [hp, if_true] at h ⊢
      have hl : l ≠ [] := by
        intro he
        exact h (by simp [he])
      rw [ih h]
      cases l with
      | nil => exact absurd rfl hl
      | cons b l' => rw [List.getLast?_cons_cons]
    · simp [hp]

theorem jsTrim_head_not_ws (s : List Char) :
    headWS (jsTrim s).head? = false := by
  unfold jsTrim
  rw [List.head?_reverse]
  by_cases h : ((s.dropWhile isWS).reverse.dropWhile isWS) = []
  · simp [h, headWS]
  · rw [getLast?_dropWhile_of_ne_nil _ _ h, List.getLast?_reverse]
    exact headWS_dropWhile_isWS s

theorem jsTrim_last_not_ws (s : List Char) :
    headWS (jsTrim s).getLast? = false := by
  unfold jsTrim
  rw [List.getLast?_reverse]
  exact headWS_dropWhile_isWS _

theorem hasDoubledWS_jsTrim {s : List Char} (h : hasDoubledWS s = false) :
    hasDoubledWS (jsTrim s) = false := by
  unfold jsTrim
  rw [hasDoubledWS_reverse]
  exact hasDoubledWS_dropWhile _ (by rw [hasDoubledWS_reverse]; exact hasDoubledWS_dropWhile _ h)

/-- C1: for every pair of strings (previous, incoming), `mergeTranscript`
returns exactly what the four-step policy of the specification prescribes,
applied in order: trim incoming and return it when previous is empty; return
the trimmed incoming when it starts with previous; return previous unchanged
when previous starts with the trimmed incoming; otherwise concatenate with a
single separating space and trim. -/
theorem c1_merge_follows_spec_policy (prev nextText : List Char) :
    mergeTranscript prev nextText = mergeSpecPolicy prev nextText := rfl

/-- C2 counterexample: merge is not idempotent on strings with leading
whitespace: merge(" a", " a") evaluates to "a a", not " a". -/
theorem c2_merge_idempotent_cex :
    mergeTranscript " a".toList " a".toList ≠ " a".toList := by decide

/-- C2 amended: merge is idempotent on every string x whose trimmed form is a
prefix of x — that is, every x from which trimming removes no leading
characters, including the empty string, all-whitespace strings, and strings
with trailing whitespace; a string with leading whitespace followed by a
non-whitespace character falsifies the unrestricted statement. -/
theorem c2_merge_idempotent_amended (x : List Char)
    (h : (jsTrim x).isPrefixOf x = true) : mergeTranscript x x = x := by
  rw [mergeTranscript_def]
  by_cases hx : x = []
  · subst hx; rfl
  · rw [if_neg hx]
    by_cases h2 : jsStartsWith (jsTrim x) x = true
    · rw [if_pos h2]
      exact (isPrefixOf_antisymm x (jsTrim x) h2 h).symm
    · rw [if_neg h2, if_pos (show jsStartsWith x (jsTrim x) = true from h)]

theorem c2_merge_idempotent_witness :
    mergeTranscript "a b ".toList "a b ".toList = "a b ".toList :=
  c2_merge_idempotent_amended _ (by decide)

/-- C8 counterexample: the merge result can contain doubled whitespace when an
input does: with previous empty and incoming "a  b", the result is "a  b",
which contains two consecutive spaces. -/
theorem c8_no_doubled_ws_cex :
    hasDoubledWS (mergeTranscript "".toList "a  b".toList) = true := by decide

/-- C8 amended: the merge result contains no doubled whitespace provided
neither input contains doubled whitespace and the previous transcript does not
end in a whitespace character; and the disjoint-continuation branch joins the
fragments with exactly one space, as in merge("portfolio is", "down today") =
"portfolio is down today". -/
theorem c8_no_doubled_ws_amended (prev inc : List Char)
    (hp : hasDoubledWS prev = false) (hi : hasDoubledWS inc = false)
    (hl : headWS prev.getLast? = false) :
    hasDoubledWS (mergeTranscript prev inc) = false ∧
      mergeTranscript "portfolio is".toList "down today".toList =
        "portfolio is down today".toList := by
  refine ⟨?_, by decide⟩
  rw [mergeTranscript_def]
  by_cases h0 : prev = []
  · rw [if_pos h0]; exact hasDoubledWS_jsTrim hi
  · rw [if_neg h0]
    by_cases h2 : jsStartsWith (jsTrim inc) prev = true
    · rw [if_pos h2]; exact hasDoubledWS_jsTrim hi
    · rw [if_neg h2]
      by_cases h3 : jsStartsWith prev (jsTrim inc) = true
      · rw [if_pos h3]; exact hp
      · rw [if_neg h3]
        apply hasDoubledWS_jsTrim
        rw [List.append_assoc, hasDoubledWS_append]
        have h4 : hasDoubledWS ([' '] ++ jsTrim inc) = false := by
          rw [List.singleton_append]
          show ((isWS ' ' && headWS (jsTrim inc).head?) || hasDoubledWS (jsTrim inc)) = false
          rw [jsTrim_head_not_ws, hasDoubledWS_jsTrim hi]
          simp
        rw [hp, hl, h4]
        simp

theorem c8_no_doubled_ws_witness :
    hasDoubledWS (mergeTranscript "ab".toList "cd".toList) = false ∧
      mergeTranscript "portfolio is".toList "down today".toList =
        "portfolio is down today".toList :=
  c8_no_doubled_ws_amended "ab".toList "cd".toList (by decide) (by decide) (by decide)

/-- Model of JS `Math.round`: floor of `x + 1/2` (JS rounds halves toward +∞). -/
def jsRound (x : ℚ) : Int := ⌊x + (1 : ℚ) / 2⌋

/-- Inner for-loop of `downsampleBuffer`: sum `buffer[i]` over
`offsetBuffer ≤ i < nextOffsetBuffer` with `i < buffer.length`, counting the
summed samples, and divide the accumulator by `Math.max(1, count)`. -/
def blockAverage (buffer : List ℚ) (offsetBuffer nextOffsetBuffer : Nat) : ℚ :=
  ((buffer.drop offsetBuffer).take (nextOffsetBuffer - offsetBuffer)).sum /
    ((max 1 ((buffer.drop offsetBuffer).take (nextOffsetBuffer - offsetBuffer)).length : ℕ) : ℚ)

/-- The while-loop of `downsampleBuffer`: produce `remaining` more output
samples, the next one averaging the input block from `offsetBuffer` up to
`Math.round((offsetResult + 1) * sampleRateRatio)` exclusive. -/
def downsampleLoop (buffer : List ℚ) (sampleRateRatio : ℚ) :
    Nat → Nat → Nat → List ℚ
  | _, _, 0 => []
  | offsetResult, offsetBuffer, r + 1 =>
    blockAverage buffer offsetBuffer
        (jsRound (((offsetResult + 1 : ℕ) : ℚ) * sampleRateRatio)).toNat ::
      downsampleLoop buffer sampleRateRatio (offsetResult + 1)
        (jsRound (((offsetResult + 1 : ℕ) : ℚ) * sampleRateRatio)).toNat r

/-- `downsampleBuffer` from `use-voice-input` (both variants are identical):
returns the buffer unchanged when the rates are equal; otherwise emits
`Math.round(buffer.length / sampleRateRatio)` block-averaged samples, where
`sampleRateRatio = inputSampleRate / outputSampleRate`.  Loop indices are
modelled as naturals: sample rates are positive at every call site (the
audio-context rate and the constant 24000), so all JS index values are
nonnegative. -/
def downsampleBuffer (buffer : List ℚ) (inputSampleRate outputSampleRate : ℚ) : List ℚ :=
  if outputSampleRate = inputSampleRate then buffer
  else
    downsampleLoop buffer (inputSampleRate / outputSampleRate) 0 0
      (jsRound ((buffer.length : ℚ) / (inputSampleRate / outputSampleRate))).toNat

/-- Truncation toward zero of the JS ToInt16 abstract operation. -/
def jsTrunc (x : ℚ) : Int := if 0 ≤ x then ⌊x⌋ else -⌊-x⌋

/-- JS ToInt16: truncate toward zero, reduce mod 2^16, map into the signed
16-bit range.  This conversion happens on every store into an `Int16Array`. -/
def toInt16 (x : ℚ) : Int :=
  if 32768 ≤ jsTrunc x % 65536 then jsTrunc x % 65536 - 65536 else jsTrunc x % 65536

/-- `floatTo16BitPCM` from `use-voice-input` (both variants are identical):
clamp each sample to [-1,1], scale negatives by 0x8000 and non-negatives by
0x7fff, and store into a 16-bit signed slot. -/
def floatTo16BitPCM (input : List ℚ) : List Int :=
  input.map fun v =>
    if max (-1 : ℚ) (min 1 v) < 0 then toInt16 (max (-1 : ℚ) (min 1 v) * 32768)
    else toInt16 (max (-1 : ℚ) (min 1 v) * 32767)

theorem downsampleLoop_length (buffer : List ℚ) (ratio : ℚ) :
    ∀ r oR oB, (downsampleLoop buffer ratio oR oB r).length = r := by
  intro r
  induction r with
  | zero => intro oR oB; rfl
  | succ n ih =>
    intro oR oB
    simp [downsampleLoop, ih]

theorem jsRound_natCast (n : ℕ) : jsRound (n : ℚ) = (n : ℤ) := by
  unfold jsRound
  rw [show ((n : ℚ) + 1 / 2) = ((n : ℤ) : ℚ) + 1 / 2 by push_cast; ring,
    Int.floor_int_add]
  norm_num

/-- C5: for every buffer and positive rates, the resampler's output length is
`round(N * R_out / R_in)` (the code computes `round(N / ratio)` with
`ratio = R_in / R_out`, which is the same rational number); and when the two
rates are equal the input buffer is returned unchanged. -/
theorem c5_resampler_length (buffer : List ℚ) (Rin Rout : ℚ)
    (hin : 0 < Rin) (hout : 0 < Rout) :
    (downsampleBuffer buffer Rin Rout).length =
        (jsRound ((buffer.length : ℚ) * Rout / Rin)).toNat ∧
      downsampleBuffer buffer Rin Rin = buffer := by
  constructor
  · unfold downsampleBuffer
    by_cases h : Rout = Rin
    · rw [if_pos h, h, mul_div_assoc, div_self (ne_of_gt hin), mul_one,
        jsRound_natCast]
      simp
    · rw [if_neg h, downsampleLoop_length, div_div_eq_mul_div]
  · simp [downsampleBuffer]

theorem c5_resampler_length_witness :
    (0 : ℚ) < 48000 ∧
      ((downsampleBuffer [0, 0, 0] 48000 24000).length =
          (jsRound ((([0, 0, 0] : List ℚ).length : ℚ) * 24000 / 48000)).toNat ∧
        downsampleBuffer ([0, 0, 0] : List ℚ) 48000 48000 = [0, 0, 0]) :=
  ⟨by norm_num, c5_resampler_length [0, 0, 0] 48000 24000 (by norm_num) (by norm_num)⟩

theorem sum_bounds (l : List ℚ) (h : ∀ x ∈ l, -1 ≤ x ∧ x ≤ 1) :
    -(l.length : ℚ) ≤ l.sum ∧ l.sum ≤ (l.length : ℚ) := by
  induction l with
  | nil => simp
  | cons a l ih =>
    have ha := h a (by simp)
    have ihl := ih fun x hx => h x (by simp [hx])
    simp only [List.sum_cons, List.length_cons]
    push_cast
    constructor
    · linarith [ihl.1, ha.1]
    · linarith [ihl.2, ha.2]

theorem blockAverage_bounds (buffer : List ℚ) (h : ∀ x ∈ buffer, -1 ≤ x ∧ x ≤ 1)
    (oB nB : Nat) : -1 ≤ blockAverage buffer oB nB ∧ blockAverage buffer oB nB ≤ 1 := by
  unfold blockAverage
  set bl := (buffer.drop oB).take (nB - oB) with hbl
  have hsub : ∀ x ∈ bl, -1 ≤ x ∧ x ≤ 1 := fun x hx =>
    h x (((List.take_sublist _ _).trans (List.drop_sublist _ _)).subset hx)
  cases hlen : bl.length with
  | zero =>
    have hnil : bl = [] := List.length_eq_zero.mp hlen
    rw [hnil]
    norm_num
  | succ n =>
    have hs := sum_bounds bl hsub
    rw [hlen] at hs
    have hmax : (max 1 (n + 1) : ℕ) = n + 1 := by omega
    rw [hmax]
    have hpos : (0 : ℚ) < ((n + 1 : ℕ) : ℚ) := by positivity
    constructor
    · rw [le_div_iff hpos]
      have h1 := hs.1
      linarith
    · rw [div_le_one hpos]
      exact hs.2

theorem downsampleLoop_bounded (buffer : List ℚ) (ratio : ℚ)
    (h : ∀ x ∈ buffer, -1 ≤ x ∧ x ≤ 1) :
    ∀ r oR oB y, y ∈ downsampleLoop buffer ratio oR oB r → -1 ≤ y ∧ y ≤ 1 := by
  intro r
  induction r with
  | zero => intro oR oB y hy; simp [downsampleLoop] at hy
  | succ n ih =>
    intro oR oB y hy
    simp only [downsampleLoop, List.mem_cons] at hy
    rcases hy with rfl | hy
    · exact blockAverage_bounds buffer h _ _
    · exact ih _ _ y hy

/-- C9: if every input sample lies in [-1,1] then every output sample of the
resampler lies in [-1,1]: each output sample is the arithmetic mean of a
non-empty block of input samples, or 0 when the block is empty (the
`Math.max(1, count)` fallback divides an accumulator of 0 by 1). -/
theorem c9_resampler_bounded (buffer : List ℚ) (Rin Rout : ℚ)
    (h : ∀ x ∈ buffer, -1 ≤ x ∧ x ≤ 1) :
    ∀ y ∈ downsampleBuffer buffer Rin Rout, -1 ≤ y ∧ y ≤ 1 := by
  intro y hy
  unfold downsampleBuffer at hy
  split at hy
  · exact h y hy
  · exact downsampleLoop_bounded buffer _ h _ _ _ y hy

theorem c9_resampler_bounded_witness :
    (0 : ℚ) ∈ downsampleBuffer [1, -1] 2 1 ∧ (-1 ≤ (0 : ℚ) ∧ (0 : ℚ) ≤ 1) :=
  ⟨by with_unfolding_all decide,
    c9_resampler_bounded [1, -1] 2 1 (by norm_num) 0 (by with_unfolding_all decide)⟩

theorem toInt16_bounds (x : ℚ) : -32768 ≤ toInt16 x ∧ toInt16 x ≤ 32767 := by
  unfold toInt16
  have h1 : 0 ≤ jsTrunc x % 65536 := Int.emod_nonneg _ (by norm_num)
  have h2 : jsTrunc x % 65536 < 65536 := Int.emod_lt_of_pos _ (by norm_num)
  split <;> omega

/-- C6: the PCM encoder clamps to [-1,1] then scales (negatives by 32768,
non-negatives by 32767), so every output sample lies in [-32768, 32767];
input 0 maps to 0, input 1 to 32767, and input -1 to -32768. -/
theorem c6_pcm_encoder_bounds (input : List ℚ) (y : Int)
    (hy : y ∈ floatTo16BitPCM input) :
    (-32768 ≤ y ∧ y ≤ 32767) ∧
      floatTo16BitPCM [0, 1, -1] = [0, 32767, -32768] := by
  refine ⟨?_, by with_unfolding_all decide⟩
  unfold floatTo16BitPCM at hy
  obtain ⟨v, _, rfl⟩ := List.mem_map.mp hy
  split <;> exact toInt16_bounds _

theorem c6_pcm_encoder_bounds_witness :
    (0 : Int) ∈ floatTo16BitPCM [0] ∧
      ((-32768 ≤ (0 : Int) ∧ (0 : Int) ≤ 32767) ∧
        floatTo16BitPCM [0, 1, -1] = [0, 32767, -32768]) :=
  ⟨by with_unfolding_all decide,
    c6_pcm_encoder_bounds [0] 0 (by with_unfolding_all decide)⟩

/-- VAD per-session state: timestamp of last detected voice and the
"has spoken yet" flag (`lastVoiceAtRef`, `hasVoiceRef`). -/
structure VadState where
  lastVoiceAt : Nat
  hasVoice : Bool
  deriving DecidableEq

/-- `startRecording` resets the VAD refs: `hasVoiceRef.current = false`,
`lastVoiceAtRef.current = Date.now()`. -/
def vadSessionInit (now0 : Nat) : VadState := { lastVoiceAt := now0, hasVoice := false }

/-- Sum of squares of a frame, as accumulated by `onaudioprocess`. -/
def sumSquares (input : List ℚ) : ℚ := (input.map fun x => x * x).sum

/-- Exact-arithmetic rendering of the frame-energy test
`Math.sqrt(sumSquares / input.length) > vadThreshold` of `onaudioprocess`:
for an empty frame JS compares `NaN > threshold`, which is false; a negative
threshold is always exceeded since the RMS is nonnegative; otherwise comparing
the RMS against a nonnegative threshold is equivalent to comparing the mean
square against the squared threshold. -/
def rmsExceeds (input : List ℚ) (threshold : ℚ) : Bool :=
  if input.length = 0 then false
  else if threshold < 0 then true
  else decide (threshold ^ 2 < sumSquares input / (input.length : ℚ))

/-- The RMS branch of `onaudioprocess`: a frame whose RMS exceeds the
threshold sets `lastVoiceAtRef` to the current time and `hasVoiceRef` to
true; other frames leave the VAD state unchanged. -/
def processFrame (s : VadState) (input : List ℚ) (threshold : ℚ) (now : Nat) : VadState :=
  if rmsExceeds input threshold then { lastVoiceAt := now, hasVoice := true } else s

/-- One captured audio frame together with the threshold ref value and the
clock value at the time it is processed. -/
structure VadFrame where
  samples : List ℚ
  threshold : ℚ
  time : Nat

/-- Fold the RMS branch of `onaudioprocess` over a sequence of frames. -/
def processFrames (s : VadState) (frames : List VadFrame) : VadState :=
  frames.foldl (fun st f => processFrame st f.samples f.threshold f.time) s

/-- The silence check body of `startVadInterval`: returns whether this tick
invokes `triggerStop`.  It requires `isRecordingRef` and `vadEnabledRef`, a
previously set `hasVoiceRef`, and `now - lastVoiceAt >= vadSilenceMs`. -/
def vadTickFires (isRecordingRef vadEnabled : Bool) (s : VadState)
    (silenceMs now : Nat) : Bool :=
  isRecordingRef && vadEnabled && s.hasVoice && decide (silenceMs ≤ now - s.lastVoiceAt)

theorem processFrames_hasVoice (frames : List VadFrame) :
    ∀ s : VadState, (processFrames s frames).hasVoice = true →
      s.hasVoice = true ∨ ∃ f ∈ frames, rmsExceeds f.samples f.threshold = true := by
  induction frames with
  | nil => intro s h; exact Or.inl h
  | cons f fs ih =>
    intro s h
    rcases ih (processFrame s f.samples f.threshold f.time) h with h1 | h1
    · unfold processFrame at h1
      by_cases hr : rmsExceeds f.samples f.threshold = true
      · exact Or.inr ⟨f, by simp, hr⟩
      · rw [if_neg hr] at h1
        exact Or.inl h1
    · obtain ⟨g, hg, hgr⟩ := h1
      exact Or.inr ⟨g, by simp [hg], hgr⟩

/-- C7: in every session the VAD silence-timeout trigger never fires before
voice has been detected at least once: starting from the `startRecording`
reset (`hasVoice = false`), if a silence-check tick invokes `triggerStop`
after any sequence of processed frames, then some earlier frame's RMS
exceeded the threshold, no matter how long silence persists. -/
theorem c7_vad_no_premature_fire (now0 : Nat) (frames : List VadFrame)
    (isRecordingRef vadEnabled : Bool) (silenceMs now : Nat)
    (hfire : vadTickFires isRecordingRef vadEnabled
      (processFrames (vadSessionInit now0) frames) silenceMs now = true) :
    ∃ f ∈ frames, rmsExceeds f.samples f.threshold = true := by
  unfold vadTickFires at hfire
  simp only [Bool.and_eq_true] at hfire
  rcases processFrames_hasVoice frames (vadSessionInit now0) hfire.1.2 with h | h
  · simp [vadSessionInit] at h
  · exact h

theorem c7_vad_no_premature_fire_witness :
    ∃ f ∈ [VadFrame.mk [1] 0 5], rmsExceeds f.samples f.threshold = true :=
  c7_vad_no_premature_fire 0 [VadFrame.mk [1] 0 5] true true 100 200
    (by with_unfolding_all decide)

/-- Per-session mutable state of the `useVoiceInput` hook (the refs and React
state touched by `stopRecording` and the socket message handler).
`wsPresent` and `wsOpen` model `wsRef.current` being non-null and its
`readyState === WebSocket.OPEN`; `audioActive` models the processor, audio
context and media-stream refs being held; `vadInterval` models
`vadIntervalRef.current` being set; `finalizeSet` models
`finalizeRef.current` being non-null. -/
structure VoiceSession where
  isRecording : Bool
  isConnecting : Bool
  isRecordingRef : Bool
  socketReady : Bool
  stopping : Bool
  transcriptRef : List Char
  wsPresent : Bool
  wsOpen : Bool
  audioActive : Bool
  vadInterval : Bool
  finalizeSet : Bool
  hasError : Bool
  deriving DecidableEq

/-- Outcome of the synchronous prefix of `stopRecording` (up to the
construction of `finalizePromise`): either the re-entrancy guard hit and the
call returns `transcriptRef.current.trim()` at once, or the call performed
teardown and entered the bounded wait, having sent `end_of_stream` iff the
socket was open. -/
inductive StopBegin where
  | earlyReturn (value : List Char)
  | awaiting (sentEndOfStream : Bool)
  deriving DecidableEq

/-- Synchronous prefix of `stopRecording` (variant with the `stoppingRef`
guard): an in-progress stop short-circuits to `transcriptRef.current.trim()`;
otherwise the call sets `stoppingRef`, clears the recording/connecting flags
and `socketReadyRef`, clears the VAD interval, awaits `cleanupAudio`, sends
`end_of_stream` when the socket is open, installs `finalizeRef`, and starts
the 1.5 s fallback timer. -/
def stopRecordingBegin (s : VoiceSession) : VoiceSession × StopBegin :=
  if s.stopping then (s, .earlyReturn (jsTrim s.transcriptRef))
  else
    ({ s with stopping := true, isRecording := false, isConnecting := false,
              isRecordingRef := false, socketReady := false,
              vadInterval := false, audioActive := false, finalizeSet := true },
     .awaiting (s.wsPresent && s.wsOpen))

/-- Resolution of `stopRecording`'s `finalizePromise` plus its `finally`
block, evaluated in the session state current at resolution time: both
resolution paths (the server finalize message and the 1.5 s timeout) resolve
with `transcriptRef.current.trim()`; the `finally` block closes the socket if
still open, nulls `wsRef`, and clears `stoppingRef`.  Returns the new state,
the string `stopRecording` returns, and whether `ws.close()` was called. -/
def stopRecordingFinish (s : VoiceSession) : VoiceSession × List Char × Bool :=
  ({ s with wsPresent := false, wsOpen := false, stopping := false },
   jsTrim s.transcriptRef, s.wsPresent && s.wsOpen)

/-- Inbound socket message as classified by `ws.onmessage`: a `text`
fragment, the `end_text` / `end_of_stream` finalize signals, an `error`
payload, or a malformed payload (ignored). -/
inductive ServerMsg where
  | text (t : List Char)
  | endText
  | endOfStream
  | errorMsg (detail : Option (List Char))
  | malformed

/-- The `ws.onmessage` handler: returns the updated session state, the value
passed to the `onTranscript` callback (if any), and the finalized value
passed to `finalizeRef.current` and `onFinalTranscript` (if any). -/
def onMessage (s : VoiceSession) (m : ServerMsg) :
    VoiceSession × Option (List Char) × Option (List Char) :=
  match m with
  | .text t =>
    ({ s with transcriptRef := mergeTranscript s.transcriptRef t },
      some (mergeTranscript s.transcriptRef t), none)
  | .endText =>
    ({ s with finalizeSet := false }, none, some (jsTrim s.transcriptRef))
  | .endOfStream =>
    ({ s with finalizeSet := false }, none, some (jsTrim s.transcriptRef))
  | .errorMsg _ => ({ s with hasError := true }, none, none)
  | .malformed => (s, none, none)

/-- C3 counterexample: on an Idle session (no recording, no stop in progress,
no socket) whose transcript ref still holds "x" from a completed session,
`stopRecording` does not return the empty string immediately: the re-entrancy
guard does not fire, so the call performs the full stop path and enters the
bounded wait, and it resolves with "x", not "". -/
theorem c3_stop_idle_cex :
    (stopRecordingBegin (VoiceSession.mk false false false false false
        "x".toList false false false false false false)).2 =
      StopBegin.awaiting false ∧
    (stopRecordingFinish (stopRecordingBegin (VoiceSession.mk false false false
        false false "x".toList false false false false false false)).1).2.1 =
      "x".toList ∧
    "x".toList ≠ ([] : List Char) := by decide

/-- C3 amended: a `stopRecording` call on an Idle session (stop not already in
progress, socket ref null) does not short-circuit: it runs the full stop path
— teardown of the audio refs, no `end_of_stream` and no socket close since no
socket exists, then the bounded finalize wait, which can only end by the
1.5 s timeout — and returns the trimmed stored transcript, which is the empty
string only when the stored transcript is all whitespace. -/
theorem c3_stop_idle_amended (s : VoiceSession)
    (hstop : s.stopping = false) (hws : s.wsPresent = false) :
    (stopRecordingBegin s).2 = StopBegin.awaiting false ∧
    (stopRecordingBegin s).1.audioActive = false ∧
    (stopRecordingFinish (stopRecordingBegin s).1).2.1 = jsTrim s.transcriptRef ∧
    (stopRecordingFinish (stopRecordingBegin s).1).2.2 = false := by
  simp [stopRecordingBegin, stopRecordingFinish, hstop, hws]

theorem c3_stop_idle_amended_witness :
    (stopRecordingBegin (VoiceSession.mk false false false false false
        [] false false false false false false)).2 = StopBegin.awaiting false ∧
    (stopRecordingBegin (VoiceSession.mk false false false false false
        [] false false false false false false)).1.audioActive = false ∧
    (stopRecordingFinish (stopRecordingBegin (VoiceSession.mk false false false
        false false [] false false false false false false)).1).2.1 =
      jsTrim ([] : List Char) ∧
    (stopRecordingFinish (stopRecordingBegin (VoiceSession.mk false false false
        false false [] false false false false false false)).1).2.2 = false :=
  c3_stop_idle_amended _ rfl rfl

/-- C4: a `stopRecording` call received while a stop is already in progress is
a no-op early return.  With the transcript ref holding `t` at the time of the
second call and at resolution, the second call returns `trim t` and changes
nothing (no audio cleanup, no `end_of_stream`, no close), while the first
call's resolution returns the same `trim t`; across both calls audio cleanup
happened exactly once (in the first call's synchronous prefix),
`end_of_stream` was sent only by the first call (iff the socket was open),
and the socket is closed only by the first call's `finally` (iff still
open). -/
theorem c4_stop_reentrancy (s : VoiceSession) (t : List Char)
    (h : s.stopping = false) :
    (stopRecordingBegin s).2 = StopBegin.awaiting (s.wsPresent && s.wsOpen) ∧
    (stopRecordingBegin s).1.stopping = true ∧
    (stopRecordingBegin s).1.audioActive = false ∧
    stopRecordingBegin { (stopRecordingBegin s).1 with transcriptRef := t } =
      ({ (stopRecordingBegin s).1 with transcriptRef := t },
        StopBegin.earlyReturn (jsTrim t)) ∧
    (stopRecordingFinish { (stopRecordingBegin s).1 with transcriptRef := t }).2.1 =
      jsTrim t ∧
    (stopRecordingFinish { (stopRecordingBegin s).1 with transcriptRef := t }).2.2 =
      (s.wsPresent && s.wsOpen) ∧
    (stopRecordingFinish { (stopRecordingBegin s).1 with transcriptRef := t }).1.wsPresent =
      false := by
  simp [stopRecordingBegin, stopRecordingFinish, h]

theorem c4_stop_reentrancy_witness :
    (stopRecordingBegin (VoiceSession.mk true false true true false
        "hi".toList true true true true false false)).2 =
      StopBegin.awaiting (true && true) ∧
    (stopRecordingBegin (VoiceSession.mk true false true true false
        "hi".toList true true true true false false)).1.stopping = true ∧
    (stopRecordingBegin (VoiceSession.mk true false true true false
        "hi".toList true true true true false false)).1.audioActive = false ∧
    stopRecordingBegin { (stopRecordingBegin (VoiceSession.mk true false true
        true false "hi".toList true true true true false false)).1 with
          transcriptRef := "hi there".toList } =
      ({ (stopRecordingBegin (VoiceSession.mk true false true true false
          "hi".toList true true true true false false)).1 with
            transcriptRef := "hi there".toList },
        StopBegin.earlyReturn (jsTrim "hi there".toList)) ∧
    (stopRecordingFinish { (stopRecordingBegin (VoiceSession.mk true false true
        true false "hi".toList true true true true false false)).1 with
          transcriptRef := "hi there".toList }).2.1 = jsTrim "hi there".toList ∧
    (stopRecordingFinish { (stopRecordingBegin (VoiceSession.mk true false true
        true false "hi".toList true true true true false false)).1 with
          transcriptRef := "hi there".toList }).2.2 = (true && true) ∧
    (stopRecordingFinish { (stopRecordingBegin (VoiceSession.mk true false true
        true false "hi".toList true true true true false false)).1 with
          transcriptRef := "hi there".toList }).1.wsPresent = false :=
  c4_stop_reentrancy _ _ rfl

/-- C10: the final transcript never has leading or trailing whitespace: the
value resolved by `stopRecordingFinish` (covering both the server-finalize
path and the 1.5 s timeout path), the value of the re-entrant early return,
and the value passed to `onFinalTranscript` by the `end_text` and
`end_of_stream` message handlers are all `transcriptRef.current.trim()`,
whose first and last characters are never whitespace. -/
theorem c10_final_transcript_trimmed (s : VoiceSession) :
    (headWS (stopRecordingFinish s).2.1.head? = false ∧
      headWS (stopRecordingFinish s).2.1.getLast? = false) ∧
    (s.stopping = true →
      (stopRecordingBegin s).2 = StopBegin.earlyReturn (jsTrim s.transcriptRef) ∧
        headWS (jsTrim s.transcriptRef).head? = false ∧
        headWS (jsTrim s.transcriptRef).getLast? = false) ∧
    (∀ v, (onMessage s ServerMsg.endText).2.2 = some v →
      headWS v.head? = false ∧ headWS v.getLast? = false) ∧
    (∀ v, (onMessage s ServerMsg.endOfStream).2.2 = some v →
      headWS v.head? = false ∧ headWS v.getLast? = false) := by
  refine ⟨⟨jsTrim_head_not_ws _, jsTrim_last_not_ws _⟩,
    fun hs => ⟨?_, jsTrim_head_not_ws _, jsTrim_last_not_ws _⟩,
    fun v hv => ?_, fun v hv => ?_⟩
  · simp [stopRecordingBegin, hs]
  · obtain rfl : jsTrim s.transcriptRef = v := by
      simpa [onMessage] using hv
    exact ⟨jsTrim_head_not_ws _, jsTrim_last_not_ws _⟩
  · obtain rfl : jsTrim s.transcriptRef = v := by
      simpa [onMessage] using hv
    exact ⟨jsTrim_head_not_ws _, jsTrim_last_not_ws _⟩

theorem c10_final_transcript_trimmed_witness :
    (onMessage (VoiceSession.mk false false false false true " x ".toList false
        false false false true false) ServerMsg.endText).2.2 = some "x".toList ∧
      (headWS ("x".toList : List Char).head? = false ∧
        headWS ("x".toList : List Char).getLast? = false) :=
  ⟨by decide,
    (c10_final_transcript_trimmed (VoiceSession.mk false false false false true
        " x ".toList false false false false true false)).2.2.1 "x".toList
      (by decide)⟩

end Flip
